import Mathlib

/-!
Shallow embedding of the gameplay logic of `src/main.rs` (a bevy voxel
demo: first-person look controller, horizontal movement, gravity/jump
vertical kinematics, and raycast block place/destroy).

Scalars are modelled as exact rationals.  Engine/math-library functions
whose exact values are irrational (quaternion constructors used for
`transform.rotation`, `Vec3::normalize_or_zero`) are taken as parameters
of the embedding; the few documented facts about them that a proof needs
(for instance that `normalize_or_zero` sends the zero vector to the zero
vector) appear as explicit hypotheses of the theorems.
-/

namespace VoxelGame

/-- 3D vector (`bevy::math::Vec3`), with exact rational components. -/
@[ext]
structure Vec3 where
  x : ℚ
  y : ℚ
  z : ℚ
deriving DecidableEq

instance : Add Vec3 := ⟨fun a b => ⟨a.x + b.x, a.y + b.y, a.z + b.z⟩⟩

instance : Sub Vec3 := ⟨fun a b => ⟨a.x - b.x, a.y - b.y, a.z - b.z⟩⟩

/-- Scalar multiplication on the right, as written in the source
(`direction * PLAYER_SPEED * time.delta_seconds()`). -/
instance : HMul Vec3 ℚ Vec3 := ⟨fun v c => ⟨v.x * c, v.y * c, v.z * c⟩⟩

/-- Componentwise `Vec3::floor` (used on block positions). -/
def Vec3.floor (v : Vec3) : Vec3 := ⟨(⌊v.x⌋ : ℚ), (⌊v.y⌋ : ℚ), (⌊v.z⌋ : ℚ)⟩

/-- `const PLAYER_SPEED: f32 = 5.0`. -/
def PLAYER_SPEED : ℚ := 5

/-- `const JUMP_SPEED: f32 = 5.0`. -/
def JUMP_SPEED : ℚ := 5

/-- Rust `f32::clamp(lo, hi)`: `lo` if below, `hi` if above, else the input. -/
def ratClamp (v lo hi : ℚ) : ℚ := if v < lo then lo else if hi < v then hi else v

/-! ### Look controller (`mouse_look`) -/

/-- The `CameraController` component: `pitch` and `yaw` in radians. -/
structure CameraController where
  pitch : ℚ
  yaw : ℚ
deriving DecidableEq

/-- The quaternion operations of the engine math library used by
`mouse_look` (`Quat::from_rotation_y`, `Quat::from_rotation_x`, `*`),
kept abstract because their entries are irrational. -/
structure QuatOps (Q : Type) where
  from_rotation_y : ℚ → Q
  from_rotation_x : ℚ → Q
  mul : Q → Q → Q

/-- The part of the viewer state touched by `mouse_look`:
`transform.rotation` and the `CameraController`. -/
structure LookState (Q : Type) where
  rotation : Q
  controller : CameraController

/-- `let sensitivity = 0.1;` in `mouse_look`. -/
def sensitivity : ℚ := 0.1

/-- Body of the `for event in events.read()` loop in `mouse_look`:
yaw and pitch update, pitch clamp to `[-1.54, 1.54]`, rotation rebuild as
`Quat::from_rotation_y(yaw) * Quat::from_rotation_x(-pitch)`. -/
def mouse_look_step {Q : Type} (ops : QuatOps Q) (dt : ℚ) (s : LookState Q)
    (delta : ℚ × ℚ) : LookState Q :=
  let yaw := s.controller.yaw - delta.1 * sensitivity * dt
  let pitch := ratClamp (s.controller.pitch + delta.2 * sensitivity * dt) (-1.54) 1.54
  { rotation := ops.mul (ops.from_rotation_y yaw) (ops.from_rotation_x (-pitch)),
    controller := { pitch := pitch, yaw := yaw } }

/-- The `mouse_look` system: fold of the per-event step over the frame's
`MouseMotion` events, in arrival order. -/
def mouse_look {Q : Type} (ops : QuatOps Q) (dt : ℚ) (events : List (ℚ × ℚ))
    (s : LookState Q) : LookState Q :=
  events.foldl (mouse_look_step ops dt) s

/-- The `CameraController` spawned in `setup`: `pitch: 0.0, yaw: 0.0`. -/
def setup_controller : CameraController := { pitch := 0, yaw := 0 }

/-! ### Horizontal movement (`player_movement`) -/

/-- Keyboard state read by `player_movement`: held WASD keys and the
edge-triggered `just_pressed(Space)` flag. -/
structure Keys where
  w : Bool
  s : Bool
  d : Bool
  a : Bool
  space_just : Bool

/-- The direction accumulation of `player_movement` before the vertical
component is zeroed: starts from `Vec3::ZERO`, adds `forward` for W,
subtracts it for S, adds `right` for D, subtracts it for A. -/
def rawDirection (keys : Keys) (fw rt : Vec3) : Vec3 :=
  let dir : Vec3 := ⟨0, 0, 0⟩
  let dir := if keys.w then dir + fw else dir
  let dir := if keys.s then dir - fw else dir
  let dir := if keys.d then dir + rt else dir
  let dir := if keys.a then dir - rt else dir
  dir

/-- `direction.y = 0.0;` -/
def zeroY (v : Vec3) : Vec3 := ⟨v.x, 0, v.z⟩

/-- The `player_movement` system acting on `transform.translation`.
`nrm` stands for the math library's `Vec3::normalize_or_zero`; `fw` and
`rt` are `transform.forward()` and `transform.right()`.  After the
horizontal displacement, a `just_pressed(Space)` edge adds
`JUMP_SPEED * dt` to the vertical coordinate, and the vertical
coordinate is then clamped from below to `1.0`. -/
def player_movement (nrm : Vec3 → Vec3) (keys : Keys) (dt : ℚ)
    (fw rt pos : Vec3) : Vec3 :=
  let direction := nrm (zeroY (rawDirection keys fw rt))
  let pos := pos + direction * PLAYER_SPEED * dt
  let pos := if keys.space_just then { pos with y := pos.y + JUMP_SPEED * dt } else pos
  if pos.y < 1 then { pos with y := 1 } else pos

/-! ### Vertical kinematics (`apply_gravity`, `player_jump`) -/

/-- The `Velocity` component: `linvel` and the grounded flag. -/
structure Velocity where
  linvel : Vec3
  on_ground : Bool
deriving DecidableEq

/-- Transform + velocity pair mutated by `apply_gravity`. -/
structure PhysState where
  translation : Vec3
  vel : Velocity
deriving DecidableEq

/-- One frame of the `apply_gravity` system: while airborne the vertical
velocity accumulates `-9.81 * dt`; the translation integrates
`linvel * dt`; if the resulting height is `<= 1.0` the height is clamped
to exactly `1.0`, the vertical velocity zeroed and the grounded flag set. -/
def apply_gravity (dt : ℚ) (s : PhysState) : PhysState :=
  let gravity : ℚ := -9.81
  let linvel := if s.vel.on_ground = false
    then { s.vel.linvel with y := s.vel.linvel.y + gravity * dt }
    else s.vel.linvel
  let translation := s.translation + linvel * dt
  if translation.y ≤ 1 then
    { translation := { translation with y := 1 },
      vel := { linvel := { linvel with y := 0 }, on_ground := true } }
  else
    { translation := translation, vel := { linvel := linvel, on_ground := s.vel.on_ground } }

/-- Iterated `apply_gravity` over a list of frame times. -/
def apply_gravity_steps : List ℚ → PhysState → PhysState
  | [], s => s
  | d :: ds, s => apply_gravity_steps ds (apply_gravity d s)

/-- The `player_jump` system on the player's `Velocity`: on a
`just_pressed(Space)` edge while grounded, set vertical velocity to
`5.0` and clear the grounded flag; otherwise do nothing. -/
def player_jump (space_just : Bool) (v : Velocity) : Velocity :=
  if v.on_ground && space_just then
    { linvel := { v.linvel with y := 5 }, on_ground := false }
  else v

/-- The `Velocity` spawned in `setup`: `linvel: Vec3::ZERO, on_ground: true`. -/
def setup_velocity : Velocity := { linvel := ⟨0, 0, 0⟩, on_ground := true }

/-! ### Block targeting (`place_or_destroy_block`) and its consumers -/

/-- A `PlaceBlockEvent` or `DespawnBlockEvent` payload. -/
inductive Intent where
  | removeAt : Vec3 → Intent
  | placeAt : Vec3 → Intent
deriving DecidableEq

/-- Body of `for i in 1..10` in `place_or_destroy_block`, over the
remaining loop indices.  At index `i`,
`check_pos = (origin + direction * i).floor()` and
`place_pos = (origin + direction * (i - 1)).floor()`; a left-button edge
sends a despawn event and breaks, otherwise a right-button edge sends a
place event and breaks. -/
def place_or_destroy_aux (left right : Bool) (origin dir : Vec3) :
    List ℕ → List Intent
  | [] => []
  | i :: rest =>
    let check_pos := (origin + dir * (i : ℚ)).floor
    let place_pos := (origin + dir * ((i : ℚ) - 1)).floor
    if left then [Intent.removeAt check_pos]
    else if right then [Intent.placeAt place_pos]
    else place_or_destroy_aux left right origin dir rest

/-- The `place_or_destroy_block` system for one frame: `left`/`right`
are the `just_pressed` edges of the mouse buttons, `origin` the camera
translation, `dir` its `forward()` vector.  Returns the events sent this
frame, in order. -/
def place_or_destroy_block (left right : Bool) (origin dir : Vec3) : List Intent :=
  place_or_destroy_aux left right origin dir (List.range' 1 9)

/-- The positions carried by the frame's `PlaceBlockEvent`s. -/
def place_events (intents : List Intent) : List Vec3 :=
  intents.filterMap fun i =>
    match i with
    | Intent.placeAt p => some p
    | Intent.removeAt _ => none

/-- The `handle_place_block` system: for every `PlaceBlockEvent(pos)` it
unconditionally spawns a cube at `pos + Vec3::Y * 0.5`; the world is
modelled as the list of spawned cube translations. -/
def handle_place_block (events : List Vec3) (world : List Vec3) : List Vec3 :=
  world ++ events.map fun p => p + (⟨0, 1, 0⟩ : Vec3) * (0.5 : ℚ)

/-! ### Despawn consumer (`handle_despawn_block`) and the `setup` world -/

/-- Kinds of entities spawned in `setup` / by placement, used to model
the `Without<Player>` query filter and to tell voxel cubes from the
other transform-bearing entities. -/
inductive EntKind where
  | player
  | light
  | ground
  | voxel
deriving DecidableEq

/-- A world entity as seen by `handle_despawn_block`'s query
`Query<(Entity, &Transform), Without<Player>>`: an id, its kind and its
transform translation. -/
structure Ent where
  eid : ℕ
  kind : EntKind
  translation : Vec3
deriving DecidableEq

/-- The inner `for (entity, transform) in blocks.iter()` loop of
`handle_despawn_block`: walk the world in iteration order, skip the
player (excluded by the query filter), despawn the first entity whose
floored translation equals the event position, and stop. -/
def despawn_scan (p : Vec3) : List Ent → List Ent
  | [] => []
  | e :: rest =>
    if e.kind ≠ EntKind.player ∧ e.translation.floor = p then rest
    else e :: despawn_scan p rest

/-- The `handle_despawn_block` system: one scan per `DespawnBlockEvent`. -/
def handle_despawn_block (events : List Vec3) (world : List Ent) : List Ent :=
  events.foldl (fun w p => despawn_scan p w) world

/-- The directional light spawned in `setup` at
`Transform::from_xyz(4.0, 8.0, 4.0)`. -/
def light_ent : Ent := ⟨0, EntKind.light, ⟨4, 8, 4⟩⟩

/-- The 16×16 grid of ground cubes spawned in `setup` at `(x, 0.0, z)`
for `x, z ∈ 0..16`. -/
def ground_ents : List Ent :=
  (List.range 16).flatMap fun x =>
    (List.range 16).map fun z => ⟨1 + x * 16 + z, EntKind.ground, ⟨(x : ℚ), 0, (z : ℚ)⟩⟩

/-- The player camera spawned in `setup` at `(8.0, 5.0, 8.0)`, carrying
the `Player` marker. -/
def player_ent : Ent := ⟨257, EntKind.player, ⟨8, 5, 8⟩⟩

/-- The transform-bearing entities spawned in `setup`, in spawn order:
the directional light, the 256 ground cubes, the player camera. -/
def setup_world : List Ent := light_ent :: (ground_ents ++ [player_ent])

/-- Trivial quaternion instance, used to instantiate abstract-rotation
theorems at a concrete input. -/
def unit_ops : QuatOps Unit := ⟨fun _ => (), fun _ => (), fun _ _ => ()⟩

/-! ### Component lemmas -/

@[simp]
theorem Vec3.add_x (a b : Vec3) : (a + b).x = a.x + b.x := rfl

@[simp]
theorem Vec3.add_y (a b : Vec3) : (a + b).y = a.y + b.y := rfl

@[simp]
theorem Vec3.add_z (a b : Vec3) : (a + b).z = a.z + b.z := rfl

@[simp]
theorem Vec3.sub_x (a b : Vec3) : (a - b).x = a.x - b.x := rfl

@[simp]
theorem Vec3.sub_y (a b : Vec3) : (a - b).y = a.y - b.y := rfl

@[simp]
theorem Vec3.sub_z (a b : Vec3) : (a - b).z = a.z - b.z := rfl

@[simp]
theorem Vec3.smul_x (v : Vec3) (c : ℚ) : (v * c).x = v.x * c := rfl

@[simp]
theorem Vec3.smul_y (v : Vec3) (c : ℚ) : (v * c).y = v.y * c := rfl

@[simp]
theorem Vec3.smul_z (v : Vec3) (c : ℚ) : (v * c).z = v.z * c := rfl

/-! ### Clamp lemmas -/

theorem ratClamp_mem (v lo hi : ℚ) (h : lo ≤ hi) :
    lo ≤ ratClamp v lo hi ∧ ratClamp v lo hi ≤ hi := by
  unfold ratClamp
  split_ifs with h1 h2 <;> constructor <;> linarith

/-! ### Look controller lemmas -/

theorem mouse_look_step_pitch {Q : Type} (ops : QuatOps Q) (dt : ℚ)
    (s : LookState Q) (delta : ℚ × ℚ) :
    (mouse_look_step ops dt s delta).controller.pitch =
      ratClamp (s.controller.pitch + delta.2 * sensitivity * dt) (-1.54) 1.54 := rfl

theorem mouse_look_pitch_mem {Q : Type} (ops : QuatOps Q) (dt : ℚ) :
    ∀ (events : List (ℚ × ℚ)) (s : LookState Q),
      -1.54 ≤ s.controller.pitch → s.controller.pitch ≤ 1.54 →
      -1.54 ≤ (mouse_look ops dt events s).controller.pitch ∧
        (mouse_look ops dt events s).controller.pitch ≤ 1.54 := by
  intro events
  induction events with
  | nil => intro s h1 h2; exact ⟨h1, h2⟩
  | cons e es ih =>
    intro s h1 h2
    have hstep := ratClamp_mem (s.controller.pitch + e.2 * sensitivity * dt)
      (-1.54) 1.54 (by norm_num)
    have : mouse_look ops dt (e :: es) s = mouse_look ops dt es (mouse_look_step ops dt s e) := rfl
    rw [this]
    exact ih (mouse_look_step ops dt s e)
      (by rw [mouse_look_step_pitch]; exact hstep.1)
      (by rw [mouse_look_step_pitch]; exact hstep.2)

/-! ### Claim theorems -/

/-- Claim C1: for every frame with `dt ≥ 0` and any sequence of mouse
motion deltas processed by `mouse_look`, the pitch lies in
`[-1.54, 1.54]` after the update; this holds from initialization (the
`setup` controller has pitch `0`) and is preserved by every invocation
of `mouse_look`. -/
theorem c1_pitch_invariant {Q : Type} (ops : QuatOps Q) (dt : ℚ)
    (events : List (ℚ × ℚ)) (s : LookState Q) (hdt : 0 ≤ dt)
    (hlo : -1.54 ≤ s.controller.pitch) (hhi : s.controller.pitch ≤ 1.54) :
    setup_controller.pitch = 0 ∧
      (-1.54 ≤ (mouse_look ops dt events s).controller.pitch ∧
        (mouse_look ops dt events s).controller.pitch ≤ 1.54) :=
  ⟨rfl, mouse_look_pitch_mem ops dt events s hlo hhi⟩

/-- Witness for C1 at a concrete frame: the initial controller, one
large motion event, `dt = 1`. -/
theorem c1_witness :
    setup_controller.pitch = 0 ∧
      (-1.54 ≤ (mouse_look unit_ops 1 [(3, 100)] ⟨(), setup_controller⟩).controller.pitch ∧
        (mouse_look unit_ops 1 [(3, 100)] ⟨(), setup_controller⟩).controller.pitch ≤ 1.54) :=
  c1_pitch_invariant unit_ops 1 [(3, 100)] ⟨(), setup_controller⟩
    (by norm_num) (by norm_num [setup_controller]) (by norm_num [setup_controller])

/-- Claim C6: a motion event `(dx, dy)` with elapsed time `dt` updates
`yaw` to `yaw - dx * 0.1 * dt`, `pitch` to
`clamp(pitch + dy * 0.1 * dt, -1.54, 1.54)` and the rotation to
`from_rotation_y(yaw) * from_rotation_x(-pitch)` at the new values; a
frame with no motion event changes nothing; several events in one frame
apply cumulatively in arrival order. -/
theorem c6_look_update {Q : Type} (ops : QuatOps Q) (dt : ℚ)
    (s : LookState Q) (dx dy : ℚ) (e1 e2 : List (ℚ × ℚ)) :
    (mouse_look ops dt [(dx, dy)] s).controller.yaw =
        s.controller.yaw - dx * 0.1 * dt ∧
      (mouse_look ops dt [(dx, dy)] s).controller.pitch =
        ratClamp (s.controller.pitch + dy * 0.1 * dt) (-1.54) 1.54 ∧
      (mouse_look ops dt [(dx, dy)] s).rotation =
        ops.mul (ops.from_rotation_y (s.controller.yaw - dx * 0.1 * dt))
          (ops.from_rotation_x
            (-(ratClamp (s.controller.pitch + dy * 0.1 * dt) (-1.54) 1.54))) ∧
      mouse_look ops dt [] s = s ∧
      mouse_look ops dt (e1 ++ e2) s = mouse_look ops dt e2 (mouse_look ops dt e1 s) :=
  ⟨rfl, rfl, rfl, rfl, by unfold mouse_look; exact List.foldl_append _ _ _ _⟩

/-! ### Movement lemmas -/

theorem player_movement_eval (nrm : Vec3 → Vec3) (keys : Keys) (dt : ℚ)
    (fw rt pos : Vec3) :
    player_movement nrm keys dt fw rt pos =
      ⟨pos.x + (nrm (zeroY (rawDirection keys fw rt))).x * PLAYER_SPEED * dt,
       if pos.y + (nrm (zeroY (rawDirection keys fw rt))).y * PLAYER_SPEED * dt +
            (if keys.space_just then JUMP_SPEED * dt else 0) < 1 then 1
       else pos.y + (nrm (zeroY (rawDirection keys fw rt))).y * PLAYER_SPEED * dt +
            (if keys.space_just then JUMP_SPEED * dt else 0),
       pos.z + (nrm (zeroY (rawDirection keys fw rt))).z * PLAYER_SPEED * dt⟩ := by
  unfold player_movement
  cases hsj : keys.space_just <;> ext <;> simp [hsj, apply_ite] <;>
    split_ifs with h <;> intro h2 <;> linarith

theorem zeroY_opposite_ws (fw rt : Vec3) (sj : Bool) :
    zeroY (rawDirection ⟨true, true, false, false, sj⟩ fw rt) = ⟨0, 0, 0⟩ := by
  simp [rawDirection, zeroY]

theorem zeroY_opposite_da (fw rt : Vec3) (sj : Bool) :
    zeroY (rawDirection ⟨false, false, true, true, sj⟩ fw rt) = ⟨0, 0, 0⟩ := by
  simp [rawDirection, zeroY]

theorem zeroY_no_keys (fw rt : Vec3) (sj : Bool) :
    zeroY (rawDirection ⟨false, false, false, false, sj⟩ fw rt) = ⟨0, 0, 0⟩ := by
  simp [rawDirection, zeroY]

/-- Claim C7: for every viewer orientation and every `dt ≥ 0`, the
movement update gives zero net horizontal displacement when opposite
movement keys are held (W+S, or A+D, the other axis unheld), and zero
displacement regardless of `dt` when no movement keys are held (the
frame carrying no jump edge and the viewer standing at height `≥ 1`, as
maintained by the ground clamp). `nrm` is the library's
`normalize_or_zero`, which maps the zero vector to itself. -/
theorem c7_opposite_keys (nrm : Vec3 → Vec3) (h0 : nrm ⟨0, 0, 0⟩ = ⟨0, 0, 0⟩)
    (fw rt pos : Vec3) (dt : ℚ) (hdt : 0 ≤ dt) :
    (∀ sj : Bool,
      ((player_movement nrm ⟨true, true, false, false, sj⟩ dt fw rt pos).x = pos.x ∧
        (player_movement nrm ⟨true, true, false, false, sj⟩ dt fw rt pos).z = pos.z) ∧
      ((player_movement nrm ⟨false, false, true, true, sj⟩ dt fw rt pos).x = pos.x ∧
        (player_movement nrm ⟨false, false, true, true, sj⟩ dt fw rt pos).z = pos.z) ∧
      ((player_movement nrm ⟨false, false, false, false, sj⟩ dt fw rt pos).x = pos.x ∧
        (player_movement nrm ⟨false, false, false, false, sj⟩ dt fw rt pos).z = pos.z)) ∧
    (1 ≤ pos.y →
      player_movement nrm ⟨true, true, false, false, false⟩ dt fw rt pos = pos ∧
      player_movement nrm ⟨false, false, true, true, false⟩ dt fw rt pos = pos ∧
      player_movement nrm ⟨false, false, false, false, false⟩ dt fw rt pos = pos) := by
  have hxz : ∀ (keys : Keys), zeroY (rawDirection keys fw rt) = ⟨0, 0, 0⟩ →
      (player_movement nrm keys dt fw rt pos).x = pos.x ∧
        (player_movement nrm keys dt fw rt pos).z = pos.z := by
    intro keys hk
    rw [player_movement_eval, hk, h0]
    constructor <;> simp
  have hfix : ∀ (keys : Keys), keys.space_just = false →
      zeroY (rawDirection keys fw rt) = ⟨0, 0, 0⟩ → 1 ≤ pos.y →
      player_movement nrm keys dt fw rt pos = pos := by
    intro keys hsj hk hy
    rw [player_movement_eval, hk, h0, hsj]
    have hcond : ¬ (pos.y + (⟨0, 0, 0⟩ : Vec3).y * PLAYER_SPEED * dt +
        (if (false : Bool) then JUMP_SPEED * dt else 0) < 1) := by
      simp; linarith
    rw [if_neg hcond]
    ext <;> simp
  exact ⟨fun sj => ⟨hxz _ (zeroY_opposite_ws fw rt sj),
      hxz _ (zeroY_opposite_da fw rt sj), hxz _ (zeroY_no_keys fw rt sj)⟩,
    fun hy => ⟨hfix _ rfl (zeroY_opposite_ws fw rt false) hy,
      hfix _ rfl (zeroY_opposite_da fw rt false) hy,
      hfix _ rfl (zeroY_no_keys fw rt false) hy⟩⟩

/-- Witness for C7 at a concrete frame: viewer at `(8, 5, 8)`, `dt = 2`,
no movement keys, no jump edge. -/
theorem c7_witness :
    player_movement id ⟨false, false, false, false, false⟩ 2 ⟨0, 0, -1⟩ ⟨1, 0, 0⟩ ⟨8, 5, 8⟩ =
      ⟨8, 5, 8⟩ :=
  ((c7_opposite_keys id rfl ⟨0, 0, -1⟩ ⟨1, 0, 0⟩ ⟨8, 5, 8⟩ 2 (by norm_num)).2
    (by norm_num)).2.2

/-- Counterexample to claim C4 as stated: in this program (which is the
gravity-enabled variant — `apply_gravity` and `player_jump` are
registered alongside `player_movement`), a frame whose only input is a
jump-key edge still moves the translation from `(8, 5, 8)` to
`(8, 10, 8)` inside `player_movement` (`dt = 1`, so the added offset is
`JUMP_SPEED * dt = 5`), although the frame's horizontal displacement is
zero (the accumulated direction is the zero vector, and
`normalize_or_zero` — instantiated here with `id`, which agrees with it
on the zero vector — keeps it zero) and the ground clamp does not act. -/
theorem c4_counterexample :
    id (zeroY (rawDirection ⟨false, false, false, false, true⟩ ⟨0, 0, -1⟩ ⟨1, 0, 0⟩)) =
        (⟨0, 0, 0⟩ : Vec3) ∧
      player_movement id ⟨false, false, false, false, true⟩ 1 ⟨0, 0, -1⟩ ⟨1, 0, 0⟩ ⟨8, 5, 8⟩ =
        ⟨8, 10, 8⟩ ∧
      (⟨8, 10, 8⟩ : Vec3) ≠ ⟨8, 5, 8⟩ := by
  refine ⟨by norm_num [zeroY, rawDirection], ?_, by norm_num [Vec3.mk.injEq]⟩
  norm_num [player_movement, zeroY, rawDirection, PLAYER_SPEED, JUMP_SPEED, Vec3.mk.injEq]

/-- Claim C4 as amended: in the gravity-enabled variant a same-frame
jump-key edge DOES add the instantaneous vertical offset
`JUMP_SPEED * dt` directly to the position inside `player_movement`, in
addition to the velocity jump of the Vertical Kinematics component: on
such a frame the movement update changes the position by the horizontal
displacement plus that vertical offset, followed by the ground clamp.
`hn` is the fact that `normalize_or_zero` keeps a vanishing vertical
component. -/
theorem c4_amended_jump_offset (nrm : Vec3 → Vec3)
    (hn : ∀ v : Vec3, v.y = 0 → (nrm v).y = 0)
    (keys : Keys) (hj : keys.space_just = true) (dt : ℚ) (fw rt pos : Vec3) :
    (player_movement nrm keys dt fw rt pos).x =
        pos.x + (nrm (zeroY (rawDirection keys fw rt))).x * PLAYER_SPEED * dt ∧
      (player_movement nrm keys dt fw rt pos).z =
        pos.z + (nrm (zeroY (rawDirection keys fw rt))).z * PLAYER_SPEED * dt ∧
      (player_movement nrm keys dt fw rt pos).y =
        (if pos.y + JUMP_SPEED * dt < 1 then 1 else pos.y + JUMP_SPEED * dt) := by
  have hy : (nrm (zeroY (rawDirection keys fw rt))).y = 0 := hn _ rfl
  rw [player_movement_eval]
  exact ⟨rfl, rfl, by simp [hj, hy]⟩

/-- Witness for the amended C4: forward key held, jump edge, `dt = 1`,
viewer at `(8, 5, 8)`. -/
theorem c4_amended_witness :
    (player_movement id ⟨true, false, false, false, true⟩ 1 ⟨0, 0, -1⟩ ⟨1, 0, 0⟩ ⟨8, 5, 8⟩).x =
        (⟨8, 5, 8⟩ : Vec3).x +
          (id (zeroY (rawDirection ⟨true, false, false, false, true⟩ ⟨0, 0, -1⟩ ⟨1, 0, 0⟩))).x *
            PLAYER_SPEED * 1 ∧
      (player_movement id ⟨true, false, false, false, true⟩ 1 ⟨0, 0, -1⟩ ⟨1, 0, 0⟩ ⟨8, 5, 8⟩).z =
        (⟨8, 5, 8⟩ : Vec3).z +
          (id (zeroY (rawDirection ⟨true, false, false, false, true⟩ ⟨0, 0, -1⟩ ⟨1, 0, 0⟩))).z *
            PLAYER_SPEED * 1 ∧
      (player_movement id ⟨true, false, false, false, true⟩ 1 ⟨0, 0, -1⟩ ⟨1, 0, 0⟩ ⟨8, 5, 8⟩).y =
        (if (⟨8, 5, 8⟩ : Vec3).y + JUMP_SPEED * 1 < 1 then 1
         else (⟨8, 5, 8⟩ : Vec3).y + JUMP_SPEED * 1) :=
  c4_amended_jump_offset id (fun _ h => h) ⟨true, false, false, false, true⟩ rfl 1
    ⟨0, 0, -1⟩ ⟨1, 0, 0⟩ ⟨8, 5, 8⟩

/-- Claim C3: a jump edge while the grounded flag holds sets the
vertical velocity to exactly `5.0` and clears the grounded flag (state
Airborne); a jump edge while airborne leaves velocity and flag
unchanged. -/
theorem c3_jump (v : Velocity) :
    (v.on_ground = true →
      player_jump true v = { linvel := { v.linvel with y := 5 }, on_ground := false }) ∧
    (v.on_ground = false → player_jump true v = v) := by
  constructor
  · intro h; simp [player_jump, h]
  · intro h; simp [player_jump, h]

/-- Witness for C3: the `setup` velocity (grounded, zero velocity) jumps
to `(0, 5, 0)` airborne; an airborne velocity is untouched. -/
theorem c3_witness :
    player_jump true ⟨⟨0, 0, 0⟩, true⟩ = ⟨⟨0, 5, 0⟩, false⟩ ∧
      player_jump true ⟨⟨1, 2, 3⟩, false⟩ = ⟨⟨1, 2, 3⟩, false⟩ :=
  ⟨(c3_jump ⟨⟨0, 0, 0⟩, true⟩).1 rfl, (c3_jump ⟨⟨1, 2, 3⟩, false⟩).2 rfl⟩

/-! ### Vertical kinematics lemmas -/

theorem apply_gravity_landed (dt : ℚ) (s : PhysState)
    (h : (apply_gravity dt s).translation.y ≤ 1) :
    (apply_gravity dt s).translation.y = 1 ∧
      (apply_gravity dt s).vel.linvel.y = 0 ∧
      (apply_gravity dt s).vel.on_ground = true := by
  simp only [apply_gravity] at h ⊢
  split_ifs at h ⊢ with h1 h2 h3
  · exact ⟨rfl, rfl, rfl⟩
  · exact absurd h h2
  · exact ⟨rfl, rfl, rfl⟩
  · exact absurd h h3

theorem apply_gravity_steps_landed :
    ∀ (dts : List ℚ) (s : PhysState), dts ≠ [] →
      (apply_gravity_steps dts s).translation.y ≤ 1 →
      (apply_gravity_steps dts s).translation.y = 1 ∧
        (apply_gravity_steps dts s).vel.linvel.y = 0 ∧
        (apply_gravity_steps dts s).vel.on_ground = true := by
  intro dts
  induction dts with
  | nil => intro s h; exact absurd rfl h
  | cons d ds ih =>
    intro s _ hy
    cases ds with
    | nil =>
      simp only [apply_gravity_steps] at hy ⊢
      exact apply_gravity_landed d s hy
    | cons d2 ds2 =>
      simp only [apply_gravity_steps] at hy ⊢
      exact ih (apply_gravity d s) (by simp) hy

/-- Claim C2: starting grounded at height `1.0` with the `setup`
velocity, firing the jump and then iterating `apply_gravity` over any
sequence of positive frame times: whenever the vertical position reads
`≤ 1.0` after an update (in particular the first time it does), the
state is exactly height `1.0`, vertical velocity `0`, grounded. -/
theorem c2_landing (px pz : ℚ) (dts : List ℚ)
    (hpos : ∀ d ∈ dts, 0 < d) (hne : dts ≠ [])
    (hland : (apply_gravity_steps dts
        ⟨⟨px, 1, pz⟩, player_jump true setup_velocity⟩).translation.y ≤ 1) :
    (apply_gravity_steps dts
        ⟨⟨px, 1, pz⟩, player_jump true setup_velocity⟩).translation.y = 1 ∧
      (apply_gravity_steps dts
        ⟨⟨px, 1, pz⟩, player_jump true setup_velocity⟩).vel.linvel.y = 0 ∧
      (apply_gravity_steps dts
        ⟨⟨px, 1, pz⟩, player_jump true setup_velocity⟩).vel.on_ground = true :=
  apply_gravity_steps_landed dts _ hne hland

/-- Witness for C2: a single frame of `dt = 1` after a jump from
`(8, 1, 8)` (the integrated height `1 + (5 - 9.81) = -3.81` crosses the
ground, so the frame lands). -/
theorem c2_witness :
    (apply_gravity_steps [1]
        ⟨⟨8, 1, 8⟩, player_jump true setup_velocity⟩).translation.y = 1 ∧
      (apply_gravity_steps [1]
        ⟨⟨8, 1, 8⟩, player_jump true setup_velocity⟩).vel.linvel.y = 0 ∧
      (apply_gravity_steps [1]
        ⟨⟨8, 1, 8⟩, player_jump true setup_velocity⟩).vel.on_ground = true :=
  c2_landing 8 8 [1] (by intro d hd; rw [List.mem_singleton] at hd; rw [hd]; norm_num)
    (by simp)
    (by norm_num [apply_gravity_steps, apply_gravity, player_jump, setup_velocity])

/-! ### Block targeting lemmas -/

theorem place_or_destroy_aux_none (origin dir : Vec3) :
    ∀ l : List ℕ, place_or_destroy_aux false false origin dir l = [] := by
  intro l
  induction l with
  | nil => rfl
  | cons i rest ih => simpa [place_or_destroy_aux] using ih

/-- Claim C5: every frame emits at most one intent; a remove edge emits
exactly one removal intent at `floor(origin + forward * 1)` and the scan
stops at the first sampled step (in particular when both buttons edge in
one frame, remove wins); a place-only edge emits exactly one placement
intent at `floor(origin + forward * 0)`; no edges emit nothing.
Concretely, from `(8, 5, 8)` facing `(0, -1, 0)` a remove edge emits
exactly one intent at `floor (8, 4, 8)`. -/
theorem c5_targeting (left right : Bool) (origin dir : Vec3) :
    (place_or_destroy_block left right origin dir).length ≤ 1 ∧
      (left = true →
        place_or_destroy_block left right origin dir =
          [Intent.removeAt ((origin + dir * (1 : ℚ)).floor)]) ∧
      (left = false → right = true →
        place_or_destroy_block left right origin dir =
          [Intent.placeAt ((origin + dir * (0 : ℚ)).floor)]) ∧
      (left = false → right = false →
        place_or_destroy_block left right origin dir = []) ∧
      place_or_destroy_block true false ⟨8, 5, 8⟩ ⟨0, -1, 0⟩ =
        [Intent.removeAt ⟨8, 4, 8⟩] := by
  refine ⟨?_, ?_, ?_, ?_, ?_⟩
  · cases left
    · cases right
      · simp [place_or_destroy_block, place_or_destroy_aux_none]
      · simp [place_or_destroy_block, place_or_destroy_aux, List.range']
    · simp [place_or_destroy_block, place_or_destroy_aux, List.range']
  · intro h
    subst h
    simp [place_or_destroy_block, place_or_destroy_aux, List.range']
  · intro h1 h2
    subst h1; subst h2
    simp [place_or_destroy_block, place_or_destroy_aux, List.range']
  · intro h1 h2
    subst h1; subst h2
    simp [place_or_destroy_block, place_or_destroy_aux_none]
  · norm_num [place_or_destroy_block, place_or_destroy_aux, List.range', Vec3.floor,
      Vec3.mk.injEq]

/-- Witness for C5: the concrete remove edge from `(8, 5, 8)` facing
straight down. -/
theorem c5_witness :
    place_or_destroy_block true false ⟨8, 5, 8⟩ ⟨0, -1, 0⟩ =
      [Intent.removeAt (((⟨8, 5, 8⟩ : Vec3) + (⟨0, -1, 0⟩ : Vec3) * (1 : ℚ)).floor)] :=
  (c5_targeting true false ⟨8, 5, 8⟩ ⟨0, -1, 0⟩).2.1 rfl

/-- Claim C8: the placement consumer spawns a cube at
`place_pos + (0, 0.5, 0)` unconditionally (for every pre-existing
world, no occupancy check); two consecutive place edges at the same
viewer pose produce two placement intents at the identical target cell,
and handling them spawns two (duplicate) cells there. -/
theorem c8_place_duplicates (origin dir : Vec3) (world : List Vec3) :
    place_or_destroy_block false true origin dir =
        [Intent.placeAt ((origin + dir * (0 : ℚ)).floor)] ∧
      place_events (place_or_destroy_block false true origin dir) =
        [(origin + dir * (0 : ℚ)).floor] ∧
      handle_place_block [(origin + dir * (0 : ℚ)).floor]
          (handle_place_block [(origin + dir * (0 : ℚ)).floor] world) =
        world ++ [(origin + dir * (0 : ℚ)).floor + (⟨0, 1, 0⟩ : Vec3) * (0.5 : ℚ),
          (origin + dir * (0 : ℚ)).floor + (⟨0, 1, 0⟩ : Vec3) * (0.5 : ℚ)] := by
  refine ⟨?_, ?_, ?_⟩
  · simp [place_or_destroy_block, place_or_destroy_aux, List.range']
  · simp [place_or_destroy_block, place_or_destroy_aux, List.range', place_events]
  · simp [handle_place_block]

/-! ### Despawn lemmas -/

theorem handle_despawn_block_single (p : Vec3) (w : List Ent) :
    handle_despawn_block [p] w = despawn_scan p w := rfl

theorem despawn_scan_no_match (p : Vec3) :
    ∀ w : List Ent, (∀ e ∈ w, e.kind ≠ EntKind.player → e.translation.floor ≠ p) →
      despawn_scan p w = w := by
  intro w
  induction w with
  | nil => intro _; rfl
  | cons e rest ih =>
    intro hw
    have he : ¬(e.kind ≠ EntKind.player ∧ e.translation.floor = p) := by
      rintro ⟨h1, h2⟩
      exact hw e (by simp) h1 h2
    simp only [despawn_scan, if_neg he]
    rw [ih fun e2 h2 => hw e2 (by simp [h2])]

theorem despawn_scan_first (p : Vec3) :
    ∀ (pre : List Ent) (e : Ent) (post : List Ent),
      (∀ e2 ∈ pre, e2.kind ≠ EntKind.player → e2.translation.floor ≠ p) →
      e.kind ≠ EntKind.player → e.translation.floor = p →
      despawn_scan p (pre ++ e :: post) = pre ++ post := by
  intro pre
  induction pre with
  | nil =>
    intro e post _ h1 h2
    simp only [List.nil_append, despawn_scan, if_pos (And.intro h1 h2)]
  | cons a rest ih =>
    intro e post hpre h1 h2
    have ha : ¬(a.kind ≠ EntKind.player ∧ a.translation.floor = p) := by
      rintro ⟨x, y⟩
      exact hpre a (by simp) x y
    simp only [List.cons_append, despawn_scan, if_neg ha, List.append_eq]
    rw [ih e post (fun e2 hm => hpre e2 (by simp [hm])) h1 h2]

theorem despawn_scan_length (p : Vec3) :
    ∀ w : List Ent, (despawn_scan p w).length = w.length ∨
      (despawn_scan p w).length + 1 = w.length := by
  intro w
  induction w with
  | nil => left; rfl
  | cons e rest ih =>
    by_cases hc : e.kind ≠ EntKind.player ∧ e.translation.floor = p
    · right
      simp [despawn_scan, if_pos hc]
    · have hstep : despawn_scan p (e :: rest) = e :: despawn_scan p rest := by
        simp [despawn_scan, if_neg hc]
      rw [hstep]
      rcases ih with h | h
      · left; simp [h]
      · right
        simp only [List.length_cons]
        omega

/-- Claim C9: for a removal intent at `p` over any world, the consumer
destroys at most one entity — the first one in iteration order (among
the non-player, transform-bearing query results) whose floored
translation equals `p` — and stops; if nothing matches, the world is
unchanged. -/
theorem c9_despawn_first (p : Vec3) :
    (∀ w : List Ent, (∀ e ∈ w, e.kind ≠ EntKind.player → e.translation.floor ≠ p) →
      handle_despawn_block [p] w = w) ∧
      (∀ (pre : List Ent) (e : Ent) (post : List Ent),
        (∀ e2 ∈ pre, e2.kind ≠ EntKind.player → e2.translation.floor ≠ p) →
        e.kind ≠ EntKind.player → e.translation.floor = p →
        handle_despawn_block [p] (pre ++ e :: post) = pre ++ post) ∧
      (∀ w : List Ent, (handle_despawn_block [p] w).length = w.length ∨
        (handle_despawn_block [p] w).length + 1 = w.length) := by
  refine ⟨?_, ?_, ?_⟩
  · intro w hw
    rw [handle_despawn_block_single]
    exact despawn_scan_no_match p w hw
  · intro pre e post hpre h1 h2
    rw [handle_despawn_block_single]
    exact despawn_scan_first p pre e post hpre h1 h2
  · intro w
    rw [handle_despawn_block_single]
    exact despawn_scan_length p w

/-- Witness for C9: a two-cube world where the first cube matches the
intent; exactly that cube is destroyed. -/
theorem c9_witness :
    handle_despawn_block [⟨0, 0, 0⟩]
        ([] ++ (⟨5, EntKind.voxel, ⟨0, 0, 0⟩⟩ : Ent) :: [⟨6, EntKind.voxel, ⟨1, 1, 1⟩⟩]) =
      [] ++ [(⟨6, EntKind.voxel, ⟨1, 1, 1⟩⟩ : Ent)] :=
  (c9_despawn_first ⟨0, 0, 0⟩).2.1 [] ⟨5, EntKind.voxel, ⟨0, 0, 0⟩⟩
    [⟨6, EntKind.voxel, ⟨1, 1, 1⟩⟩] (by simp) (by simp)
    (by norm_num [Vec3.floor, Vec3.mk.injEq])

theorem ground_ents_no_match :
    ∀ e ∈ ground_ents, e.kind ≠ EntKind.player →
      e.translation.floor ≠ (⟨4, 8, 4⟩ : Vec3) := by
  intro e he _
  simp only [ground_ents, List.mem_flatMap, List.mem_map, List.mem_range] at he
  obtain ⟨x, hx, z, hz, rfl⟩ := he
  norm_num [Vec3.floor, Vec3.mk.injEq]

/-- Claim C10: the removal scan's candidate set is every transform-bearing
non-player entity, not only voxel cubes: in the `setup` world, a removal
intent at `(4, 8, 4)` — the floored translation of the directional
light, a non-voxel entity — destroys the light, both in spawn order
(light first) and when the light is scanned after all 256 ground cubes. -/
theorem c10_despawn_nonvoxel :
    light_ent.kind ≠ EntKind.voxel ∧
      light_ent ∈ setup_world ∧
      light_ent.translation.floor = (⟨4, 8, 4⟩ : Vec3) ∧
      handle_despawn_block [⟨4, 8, 4⟩] setup_world = ground_ents ++ [player_ent] ∧
      handle_despawn_block [⟨4, 8, 4⟩] (ground_ents ++ [light_ent]) = ground_ents := by
  have hkind : light_ent.kind ≠ EntKind.player := by simp [light_ent]
  have hfloor : light_ent.translation.floor = (⟨4, 8, 4⟩ : Vec3) := by
    norm_num [light_ent, Vec3.floor, Vec3.mk.injEq]
  refine ⟨by simp [light_ent], by simp [setup_world], hfloor, ?_, ?_⟩
  · rw [handle_despawn_block_single]
    have := despawn_scan_first (⟨4, 8, 4⟩ : Vec3) [] light_ent
      (ground_ents ++ [player_ent]) (by simp) hkind hfloor
    simpa [setup_world] using this
  · rw [handle_despawn_block_single]
    have := despawn_scan_first (⟨4, 8, 4⟩ : Vec3) ground_ents light_ent []
      ground_ents_no_match hkind hfloor
    simpa using this

end VoxelGame
